import Mathlib

/-!
Shallow embedding of the vscode-dired core: the `FileItem` entry codec
(src/fileItem.ts) and the listing and selection algorithms of
`DiredProvider` (src/provider.ts).

JavaScript strings are modelled as lists of characters, and JavaScript
number values that may be `NaN` (as produced by `parseInt`) are modelled
as `Option Int`, with `none` standing for `NaN`.
-/

/-- JavaScript strings, modelled as lists of characters. -/
abbrev Str := List Char

/-- JavaScript `String.prototype.substring(a, b)` for `a ≤ b`: both indices
are clamped to the string length, out-of-range parts are empty. -/
def jsSubstring (s : Str) (a b : Nat) : Str := (s.take b).drop a

/-- JavaScript numbers produced by `parseInt`: `none` models `NaN`. -/
abbrev JsNum := Option Int

/-- Decimal digit characters, as produced by JavaScript number printing. -/
def digitChar (d : Nat) : Char :=
  match d with
  | 0 => '0' | 1 => '1' | 2 => '2' | 3 => '3' | 4 => '4'
  | 5 => '5' | 6 => '6' | 7 => '7' | 8 => '8' | 9 => '9'
  | _ => '*'

/-- Fuel-driven digit expansion of a natural number, most significant digit
first; the fuel always suffices because a number needs at most `n + 1` digits. -/
def natToStrGo : Nat → Nat → Str
  | 0, _ => []
  | fuel + 1, n =>
    if n < 10 then [digitChar n]
    else natToStrGo fuel (n / 10) ++ [digitChar (n % 10)]

/-- Decimal representation of a natural number, as JavaScript string
conversion produces for a non-negative integer value. -/
def natToStr (n : Nat) : Str := natToStrGo (n + 1) n

/-- JavaScript string conversion `num + ""` of a number: `NaN` prints as
`"NaN"`, integers print in decimal with a leading minus sign if negative. -/
def numToString : JsNum → Str
  | none => "NaN".data
  | some v => if v < 0 then '-' :: natToStr (-v).toNat else natToStr v.toNat

/-- Numeric value of a list of decimal digit characters. -/
def digitsToNat (s : Str) : Nat := s.foldl (fun a c => 10 * a + (c.toNat - 48)) 0

/-- Greedy digit run used by `parseInt` after whitespace and sign handling. -/
def parseDigits (s : Str) : Option Nat :=
  match s.takeWhile Char.isDigit with
  | [] => none
  | ds => some (digitsToNat ds)

/-- JavaScript `parseInt` in base 10: skip leading whitespace, accept an
optional sign, read a greedy run of digits and ignore the rest; the result is
`NaN` (here `none`) when no digit is found. -/
def jsParseInt (s : Str) : Option Int :=
  match s.dropWhile Char.isWhitespace with
  | [] => none
  | c :: rest =>
    if c = '-' then (parseDigits rest).map (fun n => -(n : Int))
    else if c = '+' then (parseDigits rest).map (fun n => (n : Int))
    else (parseDigits (c :: rest)).map (fun n => (n : Int))

/-- JavaScript coercion of a `string | undefined` value to a string, as
performed by string concatenation and template literals in fileItem.ts. -/
def jsStr : Option Str → Str
  | some s => s
  | none => "undefined".data

/-- One filesystem entry, as stored by the `FileItem` class (fileItem.ts). -/
structure FileItem where
  dirname : Str
  filename : Str
  isDirectory : Bool
  isFile : Bool
  username : Option Str
  groupname : Option Str
  size : JsNum
  month : JsNum
  day : JsNum
  hour : JsNum
  min : JsNum
  modeStr : Option Str
  selected : Bool
deriving DecidableEq

namespace FileItem

/-- fileItem.ts `pad`: prepend the pad character until the rendered number
reaches the requested width; it never truncates. -/
def pad (num : JsNum) (size : Nat) (p : Char) : Str :=
  List.replicate (size - (numToString num).length) p ++ numToString num

/-- The owner and group rendering of fileItem.ts `line`: append eight spaces
and keep the first eight characters (pad short names, truncate long ones). -/
def padTo8 (s : Str) : Str := jsSubstring (s ++ "        ".data) 0 8

/-- The selection marker of fileItem.ts `line`: `*` when selected, else a
space. -/
def seStr (b : Bool) : Str := if b then ['*'] else [' ']

/-- The name as rendered by fileItem.ts `line`: directories get a trailing
slash appended. -/
def nameRendered (f : FileItem) : Str :=
  if f.isDirectory then f.filename ++ ['/'] else f.filename

/-- fileItem.ts `line`: render the entry as one fixed-column buffer line. -/
def line (f : FileItem) : Str :=
  seStr f.selected ++ [' '] ++ jsStr f.modeStr ++ [' '] ++
  padTo8 (jsStr f.username) ++ [' '] ++ padTo8 (jsStr f.groupname) ++ [' '] ++
  pad f.size 8 ' ' ++ [' '] ++ pad f.month 2 '0' ++ [' '] ++ pad f.day 2 '0' ++ [' '] ++
  pad f.hour 2 '0' ++ [':'] ++ pad f.min 2 '0' ++ [' '] ++ nameRendered f

/-- fileItem.ts `parseLine`: decode one buffer line by fixed-offset substrings. -/
def parseLine (dir : Str) (l : Str) : FileItem :=
  { dirname := dir
    filename := l.drop 52
    username := some (jsSubstring l 13 21)
    groupname := some (jsSubstring l 22 30)
    size := jsParseInt (jsSubstring l 31 39)
    month := jsParseInt (jsSubstring l 40 42)
    day := jsParseInt (jsSubstring l 43 45)
    hour := jsParseInt (jsSubstring l 46 48)
    min := jsParseInt (jsSubstring l 49 51)
    modeStr := some (jsSubstring l 2 12)
    isDirectory := decide (jsSubstring (jsSubstring l 2 12) 0 1 = ['d'])
    isFile := decide (jsSubstring (jsSubstring l 2 12) 0 1 = ['-'])
    selected := decide (jsSubstring l 0 1 = ['*']) }

end FileItem

/-- The JavaScript `Date` accessors that `FileItem.create` reads; `getMonth`
is the 0-based month of the JavaScript API. -/
structure JsDate where
  getMonth : Nat
  getDate : Nat
  getHours : Nat
  getMinutes : Nat
deriving DecidableEq

/-- The part of an `fs.Stats` value consumed by `FileItem.create`; the
`stat-mode` wrapper is represented by its three queried results. -/
structure Stats where
  uid : Nat
  gid : Nat
  size : Int
  mtime : JsDate
  ctime : JsDate
  modeIsDirectory : Bool
  modeIsFile : Bool
  modeString : Str
deriving DecidableEq

namespace FileItem

/-- fileItem.ts `create`: build a fresh entry from a stat result; the id
resolver collaborator is passed as two lookup functions. -/
def create (rU rG : Nat → Option Str) (dir filename : Str) (stats : Stats) : FileItem :=
  { dirname := dir
    filename := filename
    isDirectory := stats.modeIsDirectory
    isFile := stats.modeIsFile
    username := rU stats.uid
    groupname := rG stats.gid
    size := some stats.size
    month := some ((stats.ctime.getMonth : Int) + 1)
    day := some (stats.ctime.getDate : Int)
    hour := some (stats.ctime.getHours : Int)
    min := some (stats.ctime.getMinutes : Int)
    modeStr := some stats.modeString
    selected := false }

end FileItem

/-- External collaborator model of `path.join(dir, name)`, used only as the
key handed to the stat collaborator. -/
def pathJoin (a b : Str) : Str := a ++ ['/'] ++ b

/-- provider.ts `selectFiles` loop body for one line: decode, skip `.` and
`..` unless permitted, otherwise set the flag and re-encode. -/
def selectLine (dir : Str) (value allowDot : Bool) (l : Str) : Str :=
  if ((FileItem.parseLine dir l).filename = ['.']
        ∨ (FileItem.parseLine dir l).filename = ['.', '.'])
      ∧ allowDot = false then l
  else FileItem.line { FileItem.parseLine dir l with selected := value }

/-- Index-carrying traversal implementing the `selectFiles` mutation loop. -/
def selectRangeGo (dir : Str) (value allowDot : Bool) (s e : Nat) : Nat → List Str → List Str
  | _, [] => []
  | i, l :: ls =>
    (if s ≤ i ∧ i < e then selectLine dir value allowDot l else l) ::
      selectRangeGo dir value allowDot s e (i + 1) ls

/-- provider.ts `selectFiles` (lines 311-320), the spec's `selectRange`:
replace every line with index in `[s, e)` by its re-encoded form. -/
def selectRange (dir : Str) (lines : List Str) (s e : Nat) (value allowDot : Bool) : List Str :=
  selectRangeGo dir value allowDot s e 0 lines

/-- provider.ts `readDir` filter over the possibly-failed stat results. -/
def keepEntry (showDot : Bool) : Option FileItem → Bool
  | none => false
  | some fi =>
    if fi.filename = ['.', '.'] ∨ fi.filename = ['.'] then false
    else if showDot then true
    else decide (¬ (jsSubstring fi.filename 0 1 = ['.']))

/-- provider.ts `readDir`: prepend the synthetic dot entries, stat every name
(`none` models a per-entry stat failure), then drop failed and filtered names. -/
def readDir (rU rG : Nat → Option Str) (statOf : Str → Option Stats) (showDot : Bool)
    (dirname : Str) (entries : List Str) : List FileItem :=
  ((([['.'], ['.', '.']] ++ entries).map
      (fun fn => (statOf (pathJoin dirname fn)).map (FileItem.create rU rG dirname fn))).filter
    (keepEntry showDot)).filterMap id

/-- A `JsNum` that is a number lying in `[lo, hi)`. -/
def numIn : JsNum → Int → Int → Bool
  | none, _, _ => false
  | some v, lo, hi => decide (lo ≤ v ∧ v < hi)

/-- Layout validity from the spec's data model: owner and group present, a
ten-character mode string, a size of display width at most eight, and time
fields inside their calendar ranges. -/
def validLayout (E : FileItem) : Bool :=
  E.username.isSome && E.groupname.isSome &&
  decide ((jsStr E.modeStr).length = 10) &&
  numIn E.size 0 100000000 && numIn E.month 1 13 && numIn E.day 1 32 &&
  numIn E.hour 0 24 && numIn E.min 0 60

/-- Full validity: layout validity plus the data-model tie between the two
flag fields and the first character of the mode string. -/
def validEntry (E : FileItem) : Bool :=
  validLayout E &&
  (E.isDirectory == decide (jsSubstring (jsStr E.modeStr) 0 1 = ['d'])) &&
  (E.isFile == decide (jsSubstring (jsStr E.modeStr) 0 1 = ['-']))

/-- The entry obtained by decoding the rendered line of `E` against directory
`dir`; `parseLine_line_eq` proves that decoding computes exactly this. -/
def parsedOf (dir : Str) (E : FileItem) : FileItem :=
  { dirname := dir
    filename := if E.isDirectory then E.filename ++ ['/'] else E.filename
    isDirectory := decide (jsSubstring (jsStr E.modeStr) 0 1 = ['d'])
    isFile := decide (jsSubstring (jsStr E.modeStr) 0 1 = ['-'])
    username := some (FileItem.padTo8 (jsStr E.username))
    groupname := some (FileItem.padTo8 (jsStr E.groupname))
    size := E.size
    month := E.month
    day := E.day
    hour := E.hour
    min := E.min
    modeStr := some (jsStr E.modeStr)
    selected := E.selected }

/-! ### Concrete sample data used by the claim witnesses and counterexamples -/

/-- A plain regular-file entry with short owner and group names. -/
def sampleE1 : FileItem :=
  ⟨"/tmp".data, "x".data, false, true, some "root".data, some "staff".data,
   some 42, some 1, some 5, some 9, some 3, some "-rw-r--r--".data, false⟩

/-- A directory entry, used to exhibit the slash accretion of re-encoding. -/
def sampleE2 : FileItem :=
  ⟨"/tmp".data, "sub".data, true, false, some "root".data, some "root".data,
   some 4096, some 2, some 3, some 4, some 5, some "drwxr-xr-x".data, false⟩

/-- A plain regular-file entry used for the selection idempotence witness. -/
def sampleE2f : FileItem :=
  ⟨"/tmp".data, "y".data, false, true, some "user".data, some "user".data,
   some 7, some 6, some 7, some 8, some 9, some "-rw-rw-r--".data, false⟩

/-- A plain regular-file entry used for the layout witness. -/
def sampleE5 : FileItem :=
  ⟨"/tmp".data, "z".data, false, true, some "adm".data, some "adm".data,
   some 120, some 11, some 28, some 23, some 59, some "-r--r--r--".data, true⟩

/-- A stat result whose change time and modification time differ. -/
def sampleStats4 : Stats :=
  ⟨0, 0, 0, ⟨5, 20, 21, 22⟩, ⟨3, 10, 11, 12⟩, false, true, "-rw-r--r--".data⟩

/-- A stat result for an ordinary regular file. -/
def sampleStats6 : Stats :=
  ⟨0, 0, 1, ⟨0, 1, 1, 1⟩, ⟨0, 1, 1, 1⟩, false, true, "-rw-r--r--".data⟩

/-- A stat result for an ordinary regular file. -/
def sampleStats9 : Stats :=
  ⟨7, 7, 2, ⟨0, 2, 2, 2⟩, ⟨0, 2, 2, 2⟩, false, true, "-rw-r--r--".data⟩

/-- A buffer line of 52 spaces followed by a dot: it decodes to the name `.`. -/
def dotLine8 : Str := List.replicate 52 ' ' ++ ['.']

/-! ### Arithmetic facts about decimal printing and `parseInt` -/

lemma digitChar_isDigit {d : Nat} (h : d < 10) : (digitChar d).isDigit = true := by
  interval_cases d <;> decide

lemma digitChar_toNat {d : Nat} (h : d < 10) : (digitChar d).toNat - 48 = d := by
  interval_cases d <;> decide

lemma digitChar_not_ws {d : Nat} (h : d < 10) : (digitChar d).isWhitespace = false := by
  interval_cases d <;> decide

lemma digitChar_ne_dash {d : Nat} (h : d < 10) : ¬ (digitChar d = '-') := by
  interval_cases d <;> decide

lemma digitChar_ne_plus {d : Nat} (h : d < 10) : ¬ (digitChar d = '+') := by
  interval_cases d <;> decide

lemma natToStrGo_digits : ∀ fuel n, n < fuel → ∀ c ∈ natToStrGo fuel n, c.isDigit = true := by
  intro fuel
  induction fuel with
  | zero => intro n h; omega
  | succ f ih =>
    intro n h c hc
    simp only [natToStrGo] at hc
    by_cases h10 : n < 10
    · rw [if_pos h10] at hc
      simp at hc
      subst hc
      exact digitChar_isDigit h10
    · rw [if_neg h10] at hc
      rw [List.mem_append] at hc
      rcases hc with hc | hc
      · have hdiv : n / 10 < n := Nat.div_lt_self (by omega) (by norm_num)
        exact ih (n / 10) (by omega) c hc
      · simp at hc
        subst hc
        exact digitChar_isDigit (Nat.mod_lt _ (by norm_num))

lemma natToStrGo_head : ∀ fuel n, n < fuel →
    ∃ d rest, d < 10 ∧ natToStrGo fuel n = digitChar d :: rest := by
  intro fuel
  induction fuel with
  | zero => intro n h; omega
  | succ f ih =>
    intro n h
    simp only [natToStrGo]
    by_cases h10 : n < 10
    · exact ⟨n, [], h10, by rw [if_pos h10]⟩
    · have hdiv : n / 10 < n := Nat.div_lt_self (by omega) (by norm_num)
      obtain ⟨d, rest, hd, hrw⟩ := ih (n / 10) (by omega)
      exact ⟨d, rest ++ [digitChar (n % 10)], hd, by rw [if_neg h10, hrw]; rfl⟩

lemma digitsToNat_append_singleton (l : Str) (c : Char) :
    digitsToNat (l ++ [c]) = 10 * digitsToNat l + (c.toNat - 48) := by
  simp [digitsToNat, List.foldl_append]

lemma natToStrGo_val : ∀ fuel n, n < fuel → digitsToNat (natToStrGo fuel n) = n := by
  intro fuel
  induction fuel with
  | zero => intro n h; omega
  | succ f ih =>
    intro n h
    simp only [natToStrGo]
    by_cases h10 : n < 10
    · rw [if_pos h10]
      show 10 * 0 + ((digitChar n).toNat - 48) = n
      rw [digitChar_toNat h10]
      omega
    · have hdiv : n / 10 < n := Nat.div_lt_self (by omega) (by norm_num)
      rw [if_neg h10, digitsToNat_append_singleton, ih (n / 10) (by omega),
        digitChar_toNat (Nat.mod_lt _ (by norm_num))]
      omega

lemma natToStr_digits (n : Nat) : ∀ c ∈ natToStr n, c.isDigit = true :=
  natToStrGo_digits (n + 1) n (Nat.lt_succ_self n)

lemma natToStr_val (n : Nat) : digitsToNat (natToStr n) = n :=
  natToStrGo_val (n + 1) n (Nat.lt_succ_self n)

lemma natToStr_head (n : Nat) : ∃ d rest, d < 10 ∧ natToStr n = digitChar d :: rest :=
  natToStrGo_head (n + 1) n (Nat.lt_succ_self n)

lemma natToStrGo_length : ∀ fuel n k, n < fuel → n < 10 ^ k → 0 < k →
    (natToStrGo fuel n).length ≤ k := by
  intro fuel
  induction fuel with
  | zero => intro n k h; omega
  | succ f ih =>
    intro n k h hk h0
    simp only [natToStrGo]
    by_cases h10 : n < 10
    · rw [if_pos h10]
      simpa using h0
    · rw [if_neg h10]
      match k, h0 with
      | 1, _ => rw [pow_one] at hk; omega
      | k + 2, _ =>
        have hdiv : n / 10 < n := Nat.div_lt_self (by omega) (by norm_num)
        have h2 : n / 10 < 10 ^ (k + 1) := by
          rw [Nat.div_lt_iff_lt_mul (by norm_num : (0:Nat) < 10)]
          calc n < 10 ^ (k + 2) := hk
          _ = 10 ^ (k + 1) * 10 := by ring
        have h3 := ih (n / 10) (k + 1) (by omega) h2 (by omega)
        rw [List.length_append]
        simp only [List.length_singleton]
        omega

lemma natToStr_length (n k : Nat) (hk : n < 10 ^ k) (h0 : 0 < k) : (natToStr n).length ≤ k :=
  natToStrGo_length (n + 1) n k (Nat.lt_succ_self n) hk h0

lemma numToString_nonneg {z : Int} (h : 0 ≤ z) : numToString (some z) = natToStr z.toNat := by
  simp only [numToString]
  rw [if_neg (by omega)]

lemma dropWhile_ws_spaces (k : Nat) (l : Str) :
    (List.replicate k ' ' ++ l).dropWhile Char.isWhitespace = l.dropWhile Char.isWhitespace := by
  induction k with
  | zero => simp
  | succ k ih => rw [List.replicate_succ, List.cons_append, List.dropWhile_cons, if_pos (by decide)]; exact ih

lemma takeWhile_all_digits {l : Str} (h : ∀ c ∈ l, c.isDigit = true) :
    l.takeWhile Char.isDigit = l := by
  induction l with
  | nil => rfl
  | cons a t ih =>
    rw [List.takeWhile_cons, if_pos (h a (by simp))]
    rw [ih (fun c hc => h c (by simp [hc]))]

lemma parseDigits_of_digits {l : Str} (hne : l ≠ []) (h : ∀ c ∈ l, c.isDigit = true) :
    parseDigits l = some (digitsToNat l) := by
  unfold parseDigits
  rw [takeWhile_all_digits h]
  cases l with
  | nil => exact absurd rfl hne
  | cons a t => rfl

lemma jsParseInt_eq_cons {s : Str} {c : Char} {rest : Str}
    (h : s.dropWhile Char.isWhitespace = c :: rest) :
    jsParseInt s = if c = '-' then (parseDigits rest).map (fun n => -(n : Int))
      else if c = '+' then (parseDigits rest).map (fun n => (n : Int))
      else (parseDigits (c :: rest)).map (fun n => (n : Int)) := by
  unfold jsParseInt
  rw [h]

lemma jsParseInt_spaces_natToStr (k n : Nat) :
    jsParseInt (List.replicate k ' ' ++ natToStr n) = some (n : Int) := by
  obtain ⟨d, rest, hd, hrw⟩ := natToStr_head n
  have h1 : (List.replicate k ' ' ++ natToStr n).dropWhile Char.isWhitespace
      = digitChar d :: rest := by
    rw [dropWhile_ws_spaces, hrw, List.dropWhile_cons, if_neg (by simp [digitChar_not_ws hd])]
  rw [jsParseInt_eq_cons h1, if_neg (digitChar_ne_dash hd), if_neg (digitChar_ne_plus hd), ← hrw,
    parseDigits_of_digits (by rw [hrw]; simp) (natToStr_digits n), natToStr_val]
  rfl

lemma digitsToNat_zeros (k : Nat) (l : Str) :
    digitsToNat (List.replicate k '0' ++ l) = digitsToNat l := by
  induction k with
  | zero => simp
  | succ k ih =>
    rw [List.replicate_succ, List.cons_append]
    show (List.replicate k '0' ++ l).foldl (fun a c => 10 * a + (c.toNat - 48))
      (10 * 0 + ('0'.toNat - 48)) = digitsToNat l
    rw [show 10 * 0 + ('0'.toNat - 48) = 0 from by decide]
    exact ih

lemma jsParseInt_zeros_natToStr (k n : Nat) :
    jsParseInt (List.replicate k '0' ++ natToStr n) = some (n : Int) := by
  cases k with
  | zero => simpa using jsParseInt_spaces_natToStr 0 n
  | succ k =>
    have hall : ∀ c ∈ List.replicate (k + 1) '0' ++ natToStr n, c.isDigit = true := by
      intro c hc
      rw [List.mem_append] at hc
      rcases hc with hc | hc
      · rw [List.eq_of_mem_replicate hc]; decide
      · exact natToStr_digits n c hc
    have h1 : (List.replicate (k + 1) '0' ++ natToStr n).dropWhile Char.isWhitespace
        = '0' :: (List.replicate k '0' ++ natToStr n) := by
      rw [List.replicate_succ, List.cons_append, List.dropWhile_cons, if_neg (by decide)]
    rw [jsParseInt_eq_cons h1, if_neg (by decide), if_neg (by decide)]
    rw [show '0' :: (List.replicate k '0' ++ natToStr n)
        = List.replicate (k + 1) '0' ++ natToStr n from by rw [List.replicate_succ]; rfl]
    rw [parseDigits_of_digits (by simp [natToStr]) hall, digitsToNat_zeros, natToStr_val]
    rfl

lemma jsParseInt_pad_space {z : Int} (h0 : 0 ≤ z) (h : z < 100000000) :
    jsParseInt (FileItem.pad (some z) 8 ' ') = some z := by
  unfold FileItem.pad
  rw [numToString_nonneg h0, jsParseInt_spaces_natToStr]
  congr 1
  omega

lemma jsParseInt_pad_zero {z : Int} (h0 : 0 ≤ z) (w : Nat) :
    jsParseInt (FileItem.pad (some z) w '0') = some z := by
  unfold FileItem.pad
  rw [numToString_nonneg h0, jsParseInt_zeros_natToStr]
  congr 1
  omega

/-! ### Length facts for the rendered fields -/

lemma pad_length {num : JsNum} {k : Nat} {p : Char} (h : (numToString num).length ≤ k) :
    (FileItem.pad num k p).length = k := by
  rw [FileItem.pad, List.length_append, List.length_replicate]
  omega

lemma padTo8_length (s : Str) : (FileItem.padTo8 s).length = 8 := by
  rw [FileItem.padTo8, jsSubstring, List.drop_zero, List.length_take, List.length_append]
  have : ("        ".data : Str).length = 8 := by decide
  omega

lemma seStr_length (b : Bool) : (FileItem.seStr b).length = 1 := by
  cases b <;> rfl

lemma pad_size_length {z : Int} (h0 : 0 ≤ z) (h : z < 100000000) :
    (FileItem.pad (some z) 8 ' ').length = 8 := by
  refine pad_length ?_
  rw [numToString_nonneg h0]
  refine natToStr_length _ 8 ?_ (by norm_num)
  have : (10:Nat) ^ 8 = 100000000 := by norm_num
  omega

lemma pad_time_length {z : Int} (h0 : 0 ≤ z) (h : z < 100) :
    (FileItem.pad (some z) 2 '0').length = 2 := by
  refine pad_length ?_
  rw [numToString_nonneg h0]
  refine natToStr_length _ 2 ?_ (by norm_num)
  have : (10:Nat) ^ 2 = 100 := by norm_num
  omega

/-! ### Decomposition of a rendered line into its fixed columns -/

lemma jsSubstring_shift (x l : Str) (a b : Nat) :
    jsSubstring (x ++ l) (x.length + a) (x.length + b) = jsSubstring l a b := by
  unfold jsSubstring
  rw [List.take_append_eq_append_take, List.take_of_length_le (by omega),
    show x.length + b - x.length = b from by omega,
    List.drop_append_eq_append_drop, List.drop_eq_nil_of_le (by omega), List.nil_append,
    show x.length + a - x.length = a from by omega]

lemma jsSubstring_prefix (x l : Str) : jsSubstring (x ++ l) 0 x.length = x := by
  unfold jsSubstring
  rw [List.drop_zero, List.take_append_eq_append_take, List.take_of_length_le (le_refl _),
    Nat.sub_self, List.take_zero, List.append_nil]

lemma seg_here {p : Str} (rest : Str) {b : Nat} (hb : p.length = b) :
    jsSubstring (p ++ rest) 0 b = p := by
  subst hb
  exact jsSubstring_prefix p rest

lemma seg_there {p : Str} (rest : Str) {a b c a2 b2 : Nat} (hp : p.length = c)
    (ha : c + a2 = a) (hb : c + b2 = b) :
    jsSubstring (p ++ rest) a b = jsSubstring rest a2 b2 := by
  subst hp ha hb
  exact jsSubstring_shift p rest a2 b2

lemma numIn_parts {x : JsNum} {lo hi : Int} (h : numIn x lo hi = true) :
    ∃ z : Int, x = some z ∧ lo ≤ z ∧ z < hi := by
  cases x with
  | none => simp [numIn] at h
  | some z =>
    refine ⟨z, rfl, ?_⟩
    simpa [numIn] using h

lemma validLayout_parts {E : FileItem} (h : validLayout E = true) :
    E.username.isSome = true ∧ E.groupname.isSome = true ∧
    (jsStr E.modeStr).length = 10 ∧
    (∃ z : Int, E.size = some z ∧ 0 ≤ z ∧ z < 100000000) ∧
    (∃ z : Int, E.month = some z ∧ 0 ≤ z ∧ z < 100) ∧
    (∃ z : Int, E.day = some z ∧ 0 ≤ z ∧ z < 100) ∧
    (∃ z : Int, E.hour = some z ∧ 0 ≤ z ∧ z < 100) ∧
    (∃ z : Int, E.min = some z ∧ 0 ≤ z ∧ z < 100) := by
  unfold validLayout at h
  simp only [Bool.and_eq_true, decide_eq_true_eq] at h
  obtain ⟨⟨⟨⟨⟨⟨⟨hu, hg⟩, hmo⟩, hs⟩, hm⟩, hd⟩, hh⟩, hmin⟩ := h
  refine ⟨hu, hg, hmo, ?_, ?_, ?_, ?_, ?_⟩
  · obtain ⟨z, hz, h1, h2⟩ := numIn_parts hs; exact ⟨z, hz, h1, h2⟩
  · obtain ⟨z, hz, h1, h2⟩ := numIn_parts hm; exact ⟨z, hz, by omega, by omega⟩
  · obtain ⟨z, hz, h1, h2⟩ := numIn_parts hd; exact ⟨z, hz, by omega, by omega⟩
  · obtain ⟨z, hz, h1, h2⟩ := numIn_parts hh; exact ⟨z, hz, by omega, by omega⟩
  · obtain ⟨z, hz, h1, h2⟩ := numIn_parts hmin; exact ⟨z, hz, by omega, by omega⟩

lemma validLayout_lengths {E : FileItem} (h : validLayout E = true) :
    (jsStr E.modeStr).length = 10 ∧
    (FileItem.pad E.size 8 ' ').length = 8 ∧
    (FileItem.pad E.month 2 '0').length = 2 ∧
    (FileItem.pad E.day 2 '0').length = 2 ∧
    (FileItem.pad E.hour 2 '0').length = 2 ∧
    (FileItem.pad E.min 2 '0').length = 2 := by
  obtain ⟨-, -, hmo, ⟨z, hz, h1, h2⟩, ⟨z2, hz2, h21, h22⟩, ⟨z3, hz3, h31, h32⟩,
    ⟨z4, hz4, h41, h42⟩, ⟨z5, hz5, h51, h52⟩⟩ := validLayout_parts h
  refine ⟨hmo, ?_, ?_, ?_, ?_, ?_⟩
  · rw [hz]; exact pad_size_length h1 h2
  · rw [hz2]; exact pad_time_length h21 h22
  · rw [hz3]; exact pad_time_length h31 h32
  · rw [hz4]; exact pad_time_length h41 h42
  · rw [hz5]; exact pad_time_length h51 h52

set_option maxHeartbeats 1000000 in
/-- The thirteen fixed-column fields of a rendered line, extracted by the
exact substring offsets that `parseLine` uses. -/
lemma line_fields (E : FileItem) (h : validLayout E = true) :
    jsSubstring E.line 0 1 = FileItem.seStr E.selected ∧
    jsSubstring E.line 1 2 = [' '] ∧
    jsSubstring E.line 2 12 = jsStr E.modeStr ∧
    jsSubstring E.line 13 21 = FileItem.padTo8 (jsStr E.username) ∧
    jsSubstring E.line 22 30 = FileItem.padTo8 (jsStr E.groupname) ∧
    jsSubstring E.line 31 39 = FileItem.pad E.size 8 ' ' ∧
    jsSubstring E.line 40 42 = FileItem.pad E.month 2 '0' ∧
    jsSubstring E.line 43 45 = FileItem.pad E.day 2 '0' ∧
    jsSubstring E.line 46 48 = FileItem.pad E.hour 2 '0' ∧
    jsSubstring E.line 48 49 = [':'] ∧
    jsSubstring E.line 49 51 = FileItem.pad E.min 2 '0' ∧
    jsSubstring E.line 51 52 = [' '] ∧
    E.line.drop 52 = FileItem.nameRendered E := by
  obtain ⟨hm, hsz, hmo, hdy, hhr, hmi⟩ := validLayout_lengths h
  refine ⟨?_, ?_, ?_, ?_, ?_, ?_, ?_, ?_, ?_, ?_, ?_, ?_, ?_⟩ <;>
  · unfold FileItem.line
    simp [jsSubstring, List.take_append_eq_append_take, List.drop_append_eq_append_drop,
          List.take_of_length_le, List.drop_eq_nil_of_le, hm, hsz, hmo, hdy, hhr, hmi,
          seStr_length, padTo8_length]

/-- Decoding the rendered line of a layout-valid entry gives exactly
`parsedOf dir E`: every field survives except that owner and group come back
in padded form and a directory name carries the rendered slash. -/
theorem parseLine_line_eq (dir : Str) (E : FileItem) (h : validLayout E = true) :
    FileItem.parseLine dir E.line = parsedOf dir E := by
  obtain ⟨f1, f2, f3, f4, f5, f6, f7, f8, f9, f10, f11, f12, f13⟩ := line_fields E h
  obtain ⟨-, -, -, ⟨z, hz, h1, h2⟩, ⟨z2, hz2, h21, h22⟩, ⟨z3, hz3, h31, h32⟩,
    ⟨z4, hz4, h41, h42⟩, ⟨z5, hz5, h51, h52⟩⟩ := validLayout_parts h
  unfold FileItem.parseLine parsedOf
  rw [FileItem.mk.injEq]
  refine ⟨rfl, ?_, ?_, ?_, ?_, ?_, ?_, ?_, ?_, ?_, ?_, ?_, ?_⟩
  · rw [f13]; rfl
  · rw [f3]
  · rw [f3]
  · rw [f4]
  · rw [f5]
  · rw [f6, hz]; exact jsParseInt_pad_space h1 h2
  · rw [f7, hz2]; exact jsParseInt_pad_zero h21 2
  · rw [f8, hz3]; exact jsParseInt_pad_zero h31 2
  · rw [f9, hz4]; exact jsParseInt_pad_zero h41 2
  · rw [f11, hz5]; exact jsParseInt_pad_zero h51 2
  · rw [f3]
  · rw [f1]; cases E.selected <;> rfl

/-! ### Padding facts for owner and group names -/

lemma spaces8_eq : ("        ".data : Str) = List.replicate 8 ' ' := by decide

lemma jsStr_some (s : Str) : jsStr (some s) = s := rfl

lemma padTo8_of_le {u : Str} (h : u.length ≤ 8) :
    FileItem.padTo8 u = u ++ List.replicate (8 - u.length) ' ' := by
  unfold FileItem.padTo8 jsSubstring
  rw [List.drop_zero, List.take_append_eq_append_take, List.take_of_length_le h, spaces8_eq,
    List.take_replicate]
  congr 1
  congr 1
  omega

lemma padTo8_of_length_eq {u : Str} (h : u.length = 8) : FileItem.padTo8 u = u := by
  rw [padTo8_of_le (by omega), h]
  simp

lemma padTo8_idem (s : Str) : FileItem.padTo8 (FileItem.padTo8 s) = FileItem.padTo8 s :=
  padTo8_of_length_eq (padTo8_length s)

/-! ### The selection loop, line by line -/

lemma selectRangeGo_get? (dir : Str) (v ad : Bool) (s e : Nat) :
    ∀ (ls : List Str) (i j : Nat),
      (selectRangeGo dir v ad s e i ls).get? j
        = (ls.get? j).map (fun l => if s ≤ i + j ∧ i + j < e then selectLine dir v ad l else l) := by
  intro ls
  induction ls with
  | nil => intro i j; simp [selectRangeGo]
  | cons a t ih =>
    intro i j
    cases j with
    | zero => simp [selectRangeGo]
    | succ j =>
      have harith : i + (j + 1) = (i + 1) + j := by omega
      simp only [selectRangeGo, List.get?_cons_succ, harith]
      exact ih (i + 1) j

lemma selectRange_get? (dir : Str) (lines : List Str) (s e : Nat) (v ad : Bool) (j : Nat) :
    (selectRange dir lines s e v ad).get? j
      = (lines.get? j).map (fun l => if s ≤ j ∧ j < e then selectLine dir v ad l else l) := by
  have h := selectRangeGo_get? dir v ad s e lines 0 j
  simpa [selectRange] using h

lemma validEntry_parts {E : FileItem} (h : validEntry E = true) :
    validLayout E = true ∧
    E.isDirectory = decide (jsSubstring (jsStr E.modeStr) 0 1 = ['d']) ∧
    E.isFile = decide (jsSubstring (jsStr E.modeStr) 0 1 = ['-']) := by
  unfold validEntry at h
  simp only [Bool.and_eq_true, beq_iff_eq] at h
  exact ⟨h.1.1, h.1.2, h.2⟩

lemma validLayout_parsedOf {dir : Str} {E : FileItem} (h : validLayout E = true) (v : Bool) :
    validLayout { parsedOf dir E with selected := v } = true := by
  unfold validLayout at h ⊢
  simp only [Bool.and_eq_true, decide_eq_true_eq] at h
  obtain ⟨⟨⟨⟨⟨⟨⟨hu, hg⟩, hm⟩, hs⟩, hmo⟩, hd⟩, hh⟩, hmin⟩ := h
  simp [parsedOf, jsStr_some, hm, hs, hmo, hd, hh, hmin]

lemma parsedOf_filename_of_nondir {dir : Str} {E : FileItem} (hnd : E.isDirectory = false) :
    (parsedOf dir E).filename = E.filename := by
  simp [parsedOf, hnd]

lemma parsedOf_parsedOf {dir : Str} {E : FileItem} (h : validEntry E = true)
    (hnd : E.isDirectory = false) (v : Bool) :
    parsedOf dir { parsedOf dir E with selected := v } = { parsedOf dir E with selected := v } := by
  obtain ⟨hlay, hdir, hfil⟩ := validEntry_parts h
  have hd0 : decide (jsSubstring (jsStr E.modeStr) 0 1 = ['d']) = false := by
    rw [← hdir]; exact hnd
  simp [parsedOf, jsStr_some, padTo8_idem, hd0]

lemma selectLine_line_dot {dir : Str} {E : FileItem} (hlay : validLayout E = true)
    (hnd : E.isDirectory = false)
    (hdot : E.filename = ['.'] ∨ E.filename = ['.', '.']) (v : Bool) :
    selectLine dir v false E.line = E.line := by
  unfold selectLine
  rw [parseLine_line_eq dir E hlay]
  rw [if_pos ⟨by rw [parsedOf_filename_of_nondir hnd]; exact hdot, rfl⟩]

lemma selectLine_line_nondot {dir : Str} {E : FileItem} (hlay : validLayout E = true)
    (hnd : E.isDirectory = false)
    (hdot : ¬ (E.filename = ['.'] ∨ E.filename = ['.', '.'])) (v : Bool) :
    selectLine dir v false E.line = FileItem.line { parsedOf dir E with selected := v } := by
  unfold selectLine
  rw [parseLine_line_eq dir E hlay]
  rw [if_neg (by
    intro hc
    rw [parsedOf_filename_of_nondir hnd] at hc
    exact hdot hc.1)]

lemma selectLine_selectLine {dir : Str} {E : FileItem} (h : validEntry E = true)
    (hnd : E.isDirectory = false) (v : Bool) :
    selectLine dir v false (selectLine dir v false E.line) = selectLine dir v false E.line := by
  obtain ⟨hlay, hdir, hfil⟩ := validEntry_parts h
  by_cases hdot : (E.filename = ['.'] ∨ E.filename = ['.', '.'])
  · rw [selectLine_line_dot hlay hnd hdot v, selectLine_line_dot hlay hnd hdot v]
  · rw [selectLine_line_nondot hlay hnd hdot v]
    have hnd2 : ({ parsedOf dir E with selected := v } : FileItem).isDirectory = false := by
      rw [hdir] at hnd
      simpa [parsedOf] using hnd
    have hdot2 : ¬ (({ parsedOf dir E with selected := v } : FileItem).filename = ['.']
        ∨ ({ parsedOf dir E with selected := v } : FileItem).filename = ['.', '.']) := by
      have hf : ({ parsedOf dir E with selected := v } : FileItem).filename = E.filename := by
        simpa [parsedOf] using @parsedOf_filename_of_nondir dir E hnd
      rw [hf]
      exact hdot
    rw [selectLine_line_nondot (validLayout_parsedOf hlay v) hnd2 hdot2 v]
    congr 1
    rw [parsedOf_parsedOf h hnd v]

lemma jsParseInt_none {s : Str} (h : ∀ c ∈ s, c.isDigit = false) : jsParseInt s = none := by
  cases hd : s.dropWhile Char.isWhitespace with
  | nil => unfold jsParseInt; rw [hd]
  | cons c rest =>
    have hsl : (c :: rest).Sublist s := by
      rw [← hd]; exact List.dropWhile_sublist _
    have hsub : ∀ x ∈ c :: rest, x ∈ s := fun x hx => hsl.subset hx
    have htw : ∀ (t : Str), (∀ x ∈ t, x.isDigit = false) → t.takeWhile Char.isDigit = [] := by
      intro t ht
      cases t with
      | nil => rfl
      | cons a t2 => rw [List.takeWhile_cons, if_neg (by simp [ht a (by simp)])]
    have hpd : ∀ (t : Str), (∀ x ∈ t, x.isDigit = false) → parseDigits t = none := by
      intro t ht
      unfold parseDigits
      rw [htw t ht]
    rw [jsParseInt_eq_cons hd]
    by_cases h1 : c = '-'
    · rw [if_pos h1, hpd rest (fun x hx => h x (hsub x (by simp [hx])))]; rfl
    · rw [if_neg h1]
      by_cases h2 : c = '+'
      · rw [if_pos h2, hpd rest (fun x hx => h x (hsub x (by simp [hx])))]; rfl
      · rw [if_neg h2, hpd (c :: rest) (fun x hx => h x (hsub x hx))]; rfl

/-! ### The claims -/

/-- Claim C7: toggling only the selection flag changes the rendered line
exactly at character index 0, which is `*` when selected and a space when
not; every later character is unchanged. -/
theorem C7_selection_flag_frame (E : FileItem) :
    (FileItem.line { E with selected := true }).drop 1
      = (FileItem.line { E with selected := false }).drop 1 ∧
    (FileItem.line { E with selected := true }).take 1 = ['*'] ∧
    (FileItem.line { E with selected := false }).take 1 = [' '] := by
  refine ⟨?_, ?_, ?_⟩ <;> simp [FileItem.line, FileItem.seStr, FileItem.nameRendered]

/-- Claim C5: for a layout-valid entry the rendered line has the exact
fixed-column layout: marker at 0, space, ten-character mode at 2, owner at
13 and group at 22 each padded and truncated to eight, size space-padded to
eight at 31, zero-padded month, day, hour, colon, minute at the stated
offsets, a space, and the name from column 52, with a slash appended exactly
when the entry is a directory. -/
theorem C5_line_layout (E : FileItem) (h : validLayout E = true) :
    jsSubstring E.line 0 1 = (if E.selected then ['*'] else [' ']) ∧
    jsSubstring E.line 1 2 = [' '] ∧
    jsSubstring E.line 2 12 = jsStr E.modeStr ∧ (jsStr E.modeStr).length = 10 ∧
    jsSubstring E.line 13 21 = FileItem.padTo8 (jsStr E.username) ∧
    (FileItem.padTo8 (jsStr E.username)).length = 8 ∧
    jsSubstring E.line 22 30 = FileItem.padTo8 (jsStr E.groupname) ∧
    (FileItem.padTo8 (jsStr E.groupname)).length = 8 ∧
    jsSubstring E.line 31 39 = FileItem.pad E.size 8 ' ' ∧
    (FileItem.pad E.size 8 ' ').length = 8 ∧
    jsSubstring E.line 40 42 = FileItem.pad E.month 2 '0' ∧
    (FileItem.pad E.month 2 '0').length = 2 ∧
    jsSubstring E.line 43 45 = FileItem.pad E.day 2 '0' ∧
    jsSubstring E.line 46 48 = FileItem.pad E.hour 2 '0' ∧
    jsSubstring E.line 48 49 = [':'] ∧
    jsSubstring E.line 49 51 = FileItem.pad E.min 2 '0' ∧
    jsSubstring E.line 51 52 = [' '] ∧
    E.line.drop 52 = (if E.isDirectory then E.filename ++ ['/'] else E.filename) := by
  obtain ⟨f1, f2, f3, f4, f5, f6, f7, f8, f9, f10, f11, f12, f13⟩ := line_fields E h
  obtain ⟨hm, hsz, hmo, hdy, hhr, hmi⟩ := validLayout_lengths h
  exact ⟨f1, f2, f3, hm, f4, padTo8_length _, f5, padTo8_length _, f6, hsz, f7, hmo,
    f8, f9, f10, f11, f12, f13⟩

/-- Witness for C5 at a concrete valid entry. -/
theorem C5_line_layout_witness :
    validLayout sampleE5 = true ∧
    jsSubstring sampleE5.line 0 1 = (if sampleE5.selected then ['*'] else [' ']) :=
  ⟨by decide, (C5_line_layout sampleE5 (by decide)).1⟩

/-- Claim C1 (counterexample): a fully valid entry whose owner name `root`
has fewer than eight characters decodes with the owner space-padded to eight
characters, so the decoded entry is not equal to the original in the owner
field. -/
theorem C1_roundtrip_counterexample :
    validEntry sampleE1 = true ∧ sampleE1.username = some "root".data ∧
    ("root".data : Str).length ≤ 8 ∧
    (FileItem.parseLine "/tmp".data (FileItem.line sampleE1)).username ≠ sampleE1.username := by
  decide

/-- Claim C1 as amended: decoding the rendering of a valid entry restores
every field except that owner and group come back space-padded to width
eight and the decoded name of a directory carries the rendered trailing
slash. -/
theorem C1_roundtrip_amended (dir : Str) (E : FileItem) (u g : Str)
    (h : validEntry E = true) (hu : E.username = some u) (hu8 : u.length ≤ 8)
    (hg : E.groupname = some g) (hg8 : g.length ≤ 8) :
    FileItem.parseLine dir E.line =
      { dirname := dir
        filename := E.filename ++ (if E.isDirectory then ['/'] else [])
        isDirectory := E.isDirectory
        isFile := E.isFile
        username := some (u ++ List.replicate (8 - u.length) ' ')
        groupname := some (g ++ List.replicate (8 - g.length) ' ')
        size := E.size
        month := E.month
        day := E.day
        hour := E.hour
        min := E.min
        modeStr := E.modeStr
        selected := E.selected } := by
  obtain ⟨hlay, hdir, hfil⟩ := validEntry_parts h
  rw [parseLine_line_eq dir E hlay]
  unfold parsedOf
  rw [FileItem.mk.injEq]
  refine ⟨rfl, ?_, ?_, ?_, ?_, ?_, rfl, rfl, rfl, rfl, rfl, ?_, rfl⟩
  · cases E.isDirectory <;> simp
  · exact hdir.symm
  · exact hfil.symm
  · rw [hu, jsStr_some, padTo8_of_le hu8]
  · rw [hg, jsStr_some, padTo8_of_le hg8]
  · obtain ⟨-, -, hm, -⟩ := validLayout_parts hlay
    cases hE : E.modeStr with
    | none =>
      rw [hE] at hm
      exact absurd hm (by decide)
    | some m => rw [jsStr_some]

/-- Witness for the amended C1 at a concrete valid entry. -/
theorem C1_roundtrip_amended_witness :
    FileItem.parseLine "/tmp".data (FileItem.line sampleE1) =
      { dirname := "/tmp".data
        filename := sampleE1.filename ++ (if sampleE1.isDirectory then ['/'] else [])
        isDirectory := sampleE1.isDirectory
        isFile := sampleE1.isFile
        username := some ("root".data ++ List.replicate (8 - ("root".data : Str).length) ' ')
        groupname := some ("staff".data ++ List.replicate (8 - ("staff".data : Str).length) ' ')
        size := sampleE1.size
        month := sampleE1.month
        day := sampleE1.day
        hour := sampleE1.hour
        min := sampleE1.min
        modeStr := sampleE1.modeStr
        selected := sampleE1.selected } :=
  C1_roundtrip_amended "/tmp".data sampleE1 "root".data "staff".data
    (by decide) rfl (by decide) rfl (by decide)

/-- Claim C2 (counterexample): on a rendered directory line, one selection
pass appends a slash to the name, so a second pass produces a different
buffer: selection is not idempotent on directory lines. -/
theorem C2_idem_counterexample :
    selectRange "/tmp".data
        (selectRange "/tmp".data [FileItem.line sampleE2] 0 1 true false) 0 1 true false
      ≠ selectRange "/tmp".data [FileItem.line sampleE2] 0 1 true false := by
  decide

set_option maxHeartbeats 1000000 in
/-- Claim C2 as amended: the double application of the selection pass agrees
with the single application on any range all of whose lines render valid
non-directory entries; directory lines are exactly the failure case. -/
theorem C2_idem_amended (dir : Str) (lines : List Str) (s e : Nat)
    (h : ∀ i l0, lines.get? i = some l0 → s ≤ i → i < e →
      ∃ E, validEntry E = true ∧ E.isDirectory = false ∧ l0 = FileItem.line E) :
    selectRange dir (selectRange dir lines s e true false) s e true false
      = selectRange dir lines s e true false := by
  apply List.ext_get?
  intro j
  rw [selectRange_get?, selectRange_get?]
  cases hl : lines.get? j with
  | none => rfl
  | some l0 =>
    simp only [Option.map_some']
    by_cases hin : s ≤ j ∧ j < e
    · obtain ⟨E, hE, hnd, hl0⟩ := h j l0 hl hin.1 hin.2
      subst hl0
      simp only [if_pos hin]
      rw [selectLine_selectLine hE hnd true]
    · simp only [if_neg hin]

/-- Witness for the amended C2 on a one-line buffer rendering a valid
regular file. -/
theorem C2_idem_amended_witness :
    selectRange "/tmp".data
        (selectRange "/tmp".data [FileItem.line sampleE2f] 0 1 true false) 0 1 true false
      = selectRange "/tmp".data [FileItem.line sampleE2f] 0 1 true false :=
  C2_idem_amended "/tmp".data [FileItem.line sampleE2f] 0 1 (by
    intro i l0 hl hs he
    have hi : i = 0 := by omega
    subst hi
    have h2 : some (FileItem.line sampleE2f) = some l0 := hl
    refine ⟨sampleE2f, by decide, rfl, (Option.some_inj.mp h2).symm⟩)

/-- Claim C3: the selection loop has no guard for index 0, so a range that
starts at line 0 re-encodes the header line; this run shows the header
`/tmp:` is replaced by a different line, contradicting the header-exclusion
requirement and breaking the provider's own reliance on line 0 keeping the
`dirname:` form. -/
theorem C3_header_mutation :
    (selectRange "/tmp".data ["/tmp:".data] 0 1 true false).get? 0
      ≠ some ("/tmp:".data) := by
  decide

/-- Claim C4 (counterexample): `create` reads `stats.ctime`, so on a stat
whose change time and modification time differ, every produced time field
disagrees with the modification timestamp the claim names. -/
theorem C4_create_counterexample :
    (FileItem.create (fun _ => some "root".data) (fun _ => some "root".data)
        "/d".data "x".data sampleStats4).month
      ≠ some ((sampleStats4.mtime.getMonth : Int) + 1) ∧
    (FileItem.create (fun _ => some "root".data) (fun _ => some "root".data)
        "/d".data "x".data sampleStats4).day
      ≠ some (sampleStats4.mtime.getDate : Int) ∧
    (FileItem.create (fun _ => some "root".data) (fun _ => some "root".data)
        "/d".data "x".data sampleStats4).hour
      ≠ some (sampleStats4.mtime.getHours : Int) ∧
    (FileItem.create (fun _ => some "root".data) (fun _ => some "root".data)
        "/d".data "x".data sampleStats4).min
      ≠ some (sampleStats4.mtime.getMinutes : Int) := by
  refine ⟨?_, ?_, ?_, ?_⟩ <;> decide

/-- Claim C4 as amended: the month, day, hour and minute of a freshly created
entry are taken from the stat's change timestamp `ctime`: the month is the
0-based `getMonth` plus one and the rest are the raw accessor values. -/
theorem C4_create_amended (rU rG : Nat → Option Str) (dir fn : Str) (stats : Stats) :
    (FileItem.create rU rG dir fn stats).month = some ((stats.ctime.getMonth : Int) + 1) ∧
    (FileItem.create rU rG dir fn stats).day = some (stats.ctime.getDate : Int) ∧
    (FileItem.create rU rG dir fn stats).hour = some (stats.ctime.getHours : Int) ∧
    (FileItem.create rU rG dir fn stats).min = some (stats.ctime.getMinutes : Int) :=
  ⟨rfl, rfl, rfl, rfl⟩

/-- Claim C6: the visible listing excludes `.` and `..` unconditionally and,
when dot files are hidden, also every other name beginning with a dot; on
the directory `[".", "..", "a.txt", ".hidden"]` with dot files hidden the
body holds exactly `a.txt`. -/
theorem C6_dot_filter :
    (∀ (rU rG : Nat → Option Str) (statOf : Str → Option Stats) (showDot : Bool)
        (dirname : Str) (entries : List Str) (fi : FileItem),
      fi ∈ readDir rU rG statOf showDot dirname entries →
        fi.filename ≠ ['.'] ∧ fi.filename ≠ ['.', '.'] ∧
        (showDot = false → ¬ (jsSubstring fi.filename 0 1 = ['.']))) ∧
    (readDir (fun _ => some "root".data) (fun _ => some "root".data) (fun _ => some sampleStats6)
        false "/d".data ["a.txt".data, ".hidden".data]).map FileItem.filename
      = ["a.txt".data] := by
  constructor
  · intro rU rG statOf showDot dirname entries fi hfi
    unfold readDir at hfi
    rw [List.mem_filterMap] at hfi
    obtain ⟨a, ha, hab⟩ := hfi
    have ha2 : a = some fi := by simpa using hab
    subst ha2
    rw [List.mem_filter] at ha
    have hk := ha.2
    simp only [keepEntry] at hk
    by_cases h1 : fi.filename = ['.', '.'] ∨ fi.filename = ['.']
    · rw [if_pos h1] at hk
      exact absurd hk (by decide)
    · push_neg at h1
      refine ⟨h1.2, h1.1, ?_⟩
      intro hsd hdot
      rw [if_neg (by
        intro hor
        rcases hor with h2 | h2
        · exact h1.1 h2
        · exact h1.2 h2), hsd] at hk
      simp at hk
      exact hk hdot
  · decide

/-- Witness for C6: the surviving entry `a.txt` of the scenario is neither a
dot pseudo-entry nor a hidden file. -/
theorem C6_dot_filter_witness :
    (FileItem.create (fun _ => some "root".data) (fun _ => some "root".data)
        "/d".data "a.txt".data sampleStats6).filename ≠ ['.'] :=
  (C6_dot_filter.1 (fun _ => some "root".data) (fun _ => some "root".data)
    (fun _ => some sampleStats6) false "/d".data ["a.txt".data, ".hidden".data] _ (by decide)).1

/-- Claim C8: a line whose decoded name is `.` or `..` passes through the
selection pass with allowDotEntries false byte-identical, whatever range and
value are supplied. -/
theorem C8_dot_guard (dir : Str) (lines : List Str) (s e : Nat) (value : Bool) (i : Nat)
    (l0 : Str) (hl : lines.get? i = some l0)
    (hdot : (FileItem.parseLine dir l0).filename = ['.']
      ∨ (FileItem.parseLine dir l0).filename = ['.', '.']) :
    (selectRange dir lines s e value false).get? i = some l0 := by
  rw [selectRange_get?, hl]
  simp only [Option.map_some']
  congr 1
  by_cases hin : s ≤ i ∧ i < e
  · rw [if_pos hin]
    unfold selectLine
    rw [if_pos ⟨hdot, rfl⟩]
  · rw [if_neg hin]

/-- Witness for C8 on a line of 52 spaces followed by a dot. -/
theorem C8_dot_guard_witness :
    (selectRange "/d".data [dotLine8] 0 1 true false).get? 0 = some dotLine8 :=
  C8_dot_guard "/d".data [dotLine8] 0 1 true 0 dotLine8 rfl (by decide)

/-- Claim C9: a per-entry stat failure removes exactly that entry from the
produced listing: the directory read of `pre ++ [fn] ++ post` where `fn`
fails to stat equals the read of `pre ++ post`, so all sibling entries
survive and the read is not aborted. -/
theorem C9_stat_failure (rU rG : Nat → Option Str) (statOf : Str → Option Stats)
    (showDot : Bool) (dirname : Str) (pre post : List Str) (fn : Str)
    (h : statOf (pathJoin dirname fn) = none) :
    readDir rU rG statOf showDot dirname (pre ++ fn :: post)
      = readDir rU rG statOf showDot dirname (pre ++ post) := by
  unfold readDir
  have hmid : List.map
        (fun x => (statOf (pathJoin dirname x)).map (FileItem.create rU rG dirname x))
        (fn :: post)
      = none :: List.map
        (fun x => (statOf (pathJoin dirname x)).map (FileItem.create rU rG dirname x)) post := by
    rw [List.map_cons, h, Option.map_none']
  simp only [List.map_append, hmid]
  simp [List.filter_append, List.filter_cons, keepEntry]

/-- Witness for C9: with three entries `a`, `b`, `c` and a stat that fails
only on `b`, the listing equals the listing of `a`, `c` alone. -/
theorem C9_stat_failure_witness :
    readDir (fun _ => some "r".data) (fun _ => some "r".data)
        (fun p => if p = pathJoin "/d".data "b".data then none else some sampleStats9)
        true "/d".data (["a".data] ++ "b".data :: ["c".data])
      = readDir (fun _ => some "r".data) (fun _ => some "r".data)
        (fun p => if p = pathJoin "/d".data "b".data then none else some sampleStats9)
        true "/d".data (["a".data] ++ ["c".data]) :=
  C9_stat_failure (fun _ => some "r".data) (fun _ => some "r".data)
    (fun p => if p = pathJoin "/d".data "b".data then none else some sampleStats9)
    true "/d".data ["a".data] ["c".data] "b".data (by decide)

/-- Claim C10: decoding is total in the embedded semantics: a line no longer
than 52 characters decodes with an empty name, a numeric field whose
substring holds no digit decodes to the unparsed `NaN` value, and the empty
string decodes to the entry with empty fields and `NaN` numbers, with no
failure path. -/
theorem C10_parse_total (dir l : Str) :
    (l.length ≤ 52 → (FileItem.parseLine dir l).filename = []) ∧
    ((∀ c ∈ jsSubstring l 31 39, c.isDigit = false) → (FileItem.parseLine dir l).size = none) ∧
    ((∀ c ∈ jsSubstring l 40 42, c.isDigit = false) → (FileItem.parseLine dir l).month = none) ∧
    FileItem.parseLine dir []
      = { dirname := dir, filename := [], isDirectory := false, isFile := false,
          username := some [], groupname := some [], size := none, month := none,
          day := none, hour := none, min := none, modeStr := some [], selected := false } := by
  refine ⟨?_, ?_, ?_, ?_⟩
  · intro h
    show l.drop 52 = []
    exact List.drop_eq_nil_of_le h
  · intro h
    show jsParseInt (jsSubstring l 31 39) = none
    exact jsParseInt_none h
  · intro h
    show jsParseInt (jsSubstring l 40 42) = none
    exact jsParseInt_none h
  · rfl

/-- Witness for C10 on the 5-character line `short`. -/
theorem C10_parse_total_witness :
    (FileItem.parseLine "/d".data "short".data).filename = [] ∧
    (FileItem.parseLine "/d".data "short".data).size = none :=
  ⟨(C10_parse_total "/d".data "short".data).1 (by decide),
   (C10_parse_total "/d".data "short".data).2.1 (by decide)⟩
